import Mathlib

/-!
Verification of the SQL dump parsing core of `sql-navigator.py`
(class `SQLDumpParser`).  The Python source is embedded shallowly:
strings are `List Char`, Python `re` patterns are translated into the
equivalent deterministic scanning functions for the concrete patterns
used by the program, and the mutable table dictionary becomes an
insertion-ordered association list.
-/

set_option maxRecDepth 4000

/-- The single-quote character `'` (written numerically to keep the
source free of quote literals). -/
def qc : Char := Char.ofNat 39

/-- The backtick character. -/
def btc : Char := Char.ofNat 96

/-- The backslash character. -/
def bsc : Char := '\\'

/-- Python `\s` / `str.strip()` whitespace, restricted to ASCII. -/
def isSpaceCh (c : Char) : Bool :=
  c = ' ' || c = '\t' || c = '\n' || c = '\r' || c = Char.ofNat 11 || c = Char.ofNat 12

/-- Python `\w` (ASCII): letters, digits, underscore. -/
def isWordCh (c : Char) : Bool :=
  ('a' ≤ c && c ≤ 'z') || ('A' ≤ c && c ≤ 'Z') || ('0' ≤ c && c ≤ '9') || c = '_'

/-- ASCII decimal digit. -/
def isDigitCh (c : Char) : Bool := '0' ≤ c && c ≤ '9'

/-- ASCII lower-casing, as used for case-insensitive regex matching. -/
def lcase (c : Char) : Char :=
  if 'A' ≤ c && c ≤ 'Z' then Char.ofNat (c.toNat + 32) else c

/-- ASCII upper-casing (Python `str.upper`). -/
def ucase (c : Char) : Char :=
  if 'a' ≤ c && c ≤ 'z' then Char.ofNat (c.toNat - 32) else c

/-- Match a literal pattern case-insensitively at the head of the input,
returning the rest of the input on success.  This is the semantics of a
literal inside an `re.IGNORECASE` pattern. -/
def litCI : List Char → List Char → Option (List Char)
  | [], l => some l
  | _ :: _, [] => none
  | p :: ps, c :: cs => if lcase c = lcase p then litCI ps cs else none

/-- Python `str.strip()` on both ends. -/
def pyStrip (l : List Char) : List Char :=
  ((l.dropWhile isSpaceCh).reverse.dropWhile isSpaceCh).reverse

/-- Python `str.strip(set)`: drop every leading and trailing character
that belongs to `set`. -/
def stripSet (set l : List Char) : List Char :=
  ((l.dropWhile set.contains).reverse.dropWhile set.contains).reverse

/-- Python `str.split(",")`: split at every comma, keeping empty pieces. -/
def splitComma : List Char → List (List Char)
  | [] => [[]]
  | c :: cs =>
    if c = ',' then [] :: splitComma cs
    else
      match splitComma cs with
      | [] => [[c]]
      | p :: ps => (c :: p) :: ps

/-- Python `str.replace(p1 ++ p2, rep)` for a two-character pattern
(the only shape `_parse_values` uses): left-to-right, non-overlapping. -/
def pyReplace2 (p1 p2 : Char) (rep : List Char) : List Char → List Char
  | [] => []
  | [c] => [c]
  | c :: c2 :: cs =>
    if c = p1 && c2 = p2 then rep ++ pyReplace2 p1 p2 rep cs
    else c :: pyReplace2 p1 p2 rep (c2 :: cs)

/-- A typed scalar as reconstructed by the parser.  Python's arbitrary
precision `int` is `Int`; `float(s)` for tokens of the form
`-?\d+\.\d*` is modelled as the exact decimal value, a `Rat`;
Python `None` (used both for SQL `NULL` and for missing columns)
is `null`. -/
inductive Value where
  | null : Value
  | int : Int → Value
  | float : Rat → Value
  | text : List Char → Value
deriving DecidableEq

/-- One table of the registry: `{'columns': …, 'rows': …}`. -/
structure Table where
  columns : List (List Char)
  rows : List (List Value)
deriving DecidableEq

/-- Python `dict` lookup. -/
def dictGet : List (List Char × Table) → List Char → Option Table
  | [], _ => none
  | (k2, v) :: rest, k => if k2 = k then some v else dictGet rest k

/-- Python `dict` assignment: overwrite in place, else append. -/
def dictSet : List (List Char × Table) → List Char → Table → List (List Char × Table)
  | [], k, v => [(k, v)]
  | (k2, v2) :: rest, k, v =>
    if k2 = k then (k2, v) :: rest else (k2, v2) :: dictSet rest k v

/-- State of the character scan in `_split_values`:
`in_string`, `escape`, `depth`, the accumulating tuple text `current`
and the output list `values`.  `depth` is a Python `int`. -/
structure SplitSt where
  inStr : Bool
  esc : Bool
  depth : Int
  current : List Char
  out : List (List Char)
deriving DecidableEq

/-- Value of `in_string` after the quote-toggle line of the loop body. -/
def nextInStr (st : SplitSt) (c : Char) : Bool :=
  if c = qc && !st.esc then !st.inStr else st.inStr

/-- Value of `escape` after the loop body (the toggle uses the updated
`in_string`). -/
def nextEsc (st : SplitSt) (c : Char) : Bool :=
  if c = bsc && nextInStr st c then !st.esc else false

/-- Value of `depth` after the loop body (paren counting is suppressed
inside strings). -/
def nextDepth (st : SplitSt) (c : Char) : Int :=
  if c = '(' && !nextInStr st c then st.depth + 1
  else if c = ')' && !nextInStr st c then st.depth - 1
  else st.depth

/-- One iteration of the `for char in values_str` loop of
`_split_values`. -/
def splitStep (st : SplitSt) (c : Char) : SplitSt :=
  if c = ',' && decide (nextDepth st c = 0) && !nextInStr st c then
    if pyStrip st.current = [] then
      ⟨nextInStr st c, nextEsc st c, nextDepth st c, st.current, st.out⟩
    else
      ⟨nextInStr st c, nextEsc st c, nextDepth st c, [], st.out ++ [pyStrip st.current]⟩
  else
    ⟨nextInStr st c, nextEsc st c, nextDepth st c, st.current ++ [c], st.out⟩

/-- The initial scan state of `_split_values`. -/
def initSplitSt : SplitSt := ⟨false, false, 0, [], []⟩

/-- The scan state after processing a whole values string. -/
def splitRun (l : List Char) : SplitSt := l.foldl splitStep initSplitSt

/-- Model of `SQLDumpParser._split_values`: split the VALUES body into tuple
texts, then flush the final accumulated text if non-blank. -/
def splitValues (l : List Char) : List (List Char) :=
  let st := splitRun l
  if pyStrip st.current = [] then st.out else st.out ++ [pyStrip st.current]

/-- Tail of a quoted-string token: the regex fragment
`(?:\\'|[^'])*'` applied after the opening quote, with Python's
backtracking priority (escaped quote, then any non-quote, then the
closing quote).  Returns the consumed characters (closing quote
included) and the rest. -/
def qtail : List Char → Option (List Char × List Char)
  | [] => none
  | [c] => if c = qc then some ([c], []) else none
  | c :: c2 :: cs2 =>
    if c = qc then some ([c], c2 :: cs2)
    else if c = bsc && c2 = qc then
      match qtail cs2 with
      | some (tk, rest) => some (c :: c2 :: tk, rest)
      | none =>
        match qtail (c2 :: cs2) with
        | some (tk, rest) => some (c :: tk, rest)
        | none => none
    else
      match qtail (c2 :: cs2) with
      | some (tk, rest) => some (c :: tk, rest)
      | none => none

/-- One match attempt of the `_parse_values` tokenising pattern
`'(?:\\'|[^'])*'|NULL|[^,]+` at the head of the input: quoted string
first, then the literal `NULL` (case-insensitive), then a run of
non-comma characters. -/
def findTok (l : List Char) : Option (List Char × List Char) :=
  match l with
  | [] => none
  | c :: cs =>
    if c = qc then
      match qtail cs with
      | some (tk, rest) => some (c :: tk, rest)
      | none => findTokTail l
    else findTokTail l
where
  findTokTail (l : List Char) : Option (List Char × List Char) :=
    match litCI ['n', 'u', 'l', 'l'] l with
    | some rest => some (l.take 4, rest)
    | none =>
      match l with
      | [] => none
      | c :: _ =>
        if c = ',' then none
        else some (l.takeWhile (· != ','), l.dropWhile (· != ','))

/-- Semantics of `re.findall` for the tokenising pattern: scan left to right, keeping
matches and skipping one character where no branch matches. -/
def findallTokF : Nat → List Char → List (List Char)
  | 0, _ => []
  | _ + 1, [] => []
  | fuel + 1, c :: cs =>
    match findTok (c :: cs) with
    | some (tk, rest) => tk :: findallTokF fuel rest
    | none => findallTokF fuel cs

/-- All tokens of a tuple interior, in order. -/
def findallTok (l : List Char) : List (List Char) :=
  findallTokF (l.length + 1) l

/-- Is the token an integer literal `^-?\d+$`? -/
def isIntTok (l : List Char) : Bool :=
  match l with
  | '-' :: rest => !rest.isEmpty && rest.all isDigitCh
  | _ => !l.isEmpty && l.all isDigitCh

/-- Is the token a decimal literal `^-?\d+\.\d*$`? -/
def isFloatTok (l : List Char) : Bool :=
  let l2 := match l with | '-' :: r => r | _ => l
  let ip := l2.takeWhile isDigitCh
  match l2.dropWhile isDigitCh with
  | '.' :: fr => !ip.isEmpty && fr.all isDigitCh
  | _ => false

/-- Numeric value of a digit string. -/
def digitsVal (l : List Char) : Nat :=
  l.foldl (fun a c => a * 10 + (c.toNat - 48)) 0

/-- Python `int(raw)` for `^-?\d+$` tokens. -/
def parseIntTok (l : List Char) : Int :=
  match l with
  | '-' :: r => -(digitsVal r : Int)
  | _ => (digitsVal l : Int)

/-- Python `float(raw)` for `^-?\d+\.\d*$` tokens, modelled exactly. -/
def parseFloatTok (l : List Char) : Rat :=
  let sl : Int × List Char := match l with | '-' :: r => (-1, r) | _ => (1, l)
  let ip := sl.2.takeWhile isDigitCh
  let fr := (sl.2.dropWhile isDigitCh).drop 1
  mkRat (sl.1 * (digitsVal (ip ++ fr) : Int)) (10 ^ fr.length)

/-- The body of the token loop of `_parse_values`, applied to a stripped
raw token: `None` for `NULL`, unquote-and-unescape for quoted tokens,
`int`, `float`, or the raw text. -/
def coerceRaw (raw : List Char) : Option Value :=
  if raw = [] then none
  else if raw.map ucase = ['N', 'U', 'L', 'L'] then some .null
  else if raw.head? = some qc && raw.getLast? = some qc then
    some (.text (pyReplace2 bsc bsc [bsc] (pyReplace2 bsc qc [qc] ((raw.drop 1).dropLast))))
  else if isIntTok raw then some (.int (parseIntTok raw))
  else if isFloatTok raw then some (.float (parseFloatTok raw))
  else some (.text raw)

/-- One token's contribution in `_parse_values`: strip it, then coerce;
blank tokens yield nothing (`if not raw: continue`). -/
def coerceTok (t : List Char) : Option Value := coerceRaw (pyStrip t)

/-- The set of characters stripped by `val_str.strip('()')`. -/
def parenSet : List Char := ['(', ')']

/-- The interior text used by `_parse_values`: `val_str.strip('()')`. -/
def stripParens (l : List Char) : List Char := stripSet parenSet l

/-- Model of `SQLDumpParser._parse_values`: one tuple text to its list of typed
values. -/
def parseValues (l : List Char) : List Value :=
  (findallTok (stripParens l)).filterMap coerceTok

/-- Semantics of `\s+`: require at least one whitespace character, consume the run. -/
def dropWS1 (l : List Char) : Option (List Char) :=
  match l with
  | c :: cs => if isSpaceCh c then some (cs.dropWhile isSpaceCh) else none
  | [] => none

/-- Semantics of `\w+`: require at least one word character, return the maximal run
and the rest. -/
def takeWord1 (l : List Char) : Option (List Char × List Char) :=
  match l with
  | c :: cs =>
    if isWordCh c then some (c :: cs.takeWhile isWordCh, cs.dropWhile isWordCh)
    else none
  | [] => none

/-- An optional backtick. -/
def optTick (l : List Char) : List Char :=
  match l with
  | c :: cs => if c = btc then cs else l
  | [] => []

/-- The literal `ENGINE=` of the CREATE TABLE pattern. -/
def engineChars : List Char := ['e', 'n', 'g', 'i', 'n', 'e', '=']

/-- The non-greedy `(.*?)\)\s*ENGINE=` of the CREATE TABLE pattern:
find the shortest body such that the rest starts with a closing paren,
optional whitespace and the engine marker. -/
def bodyToEngine : List Char → Option (List Char × List Char)
  | [] => none
  | c :: cs =>
    match (if c = ')' then litCI engineChars (cs.dropWhile isSpaceCh) else none) with
    | some rest => some ([], rest)
    | none =>
      match bodyToEngine cs with
      | some (b, rest) => some (c :: b, rest)
      | none => none

/-- Attempt to match the CREATE TABLE pattern
`CREATE TABLE\s+`?(\w+)`?\s*\((.*?)\)\s*ENGINE=` at the head of the
input.  Returns the table name, the captured body, and the rest of the
input after the match. -/
def matchCreateAt (l : List Char) : Option (List Char × List Char × List Char) :=
  match litCI "create table".data l with
  | none => none
  | some r1 =>
    match dropWS1 r1 with
    | none => none
    | some r2 =>
      match takeWord1 (optTick r2) with
      | none => none
      | some (name, r4) =>
        match (optTick r4).dropWhile isSpaceCh with
        | [] => none
        | c0 :: r7 =>
          if c0 = '(' then
            match bodyToEngine r7 with
            | some (body, rest) => some (name, body, rest)
            | none => none
          else none

/-- Semantics of `re.finditer` for the CREATE TABLE pattern: leftmost matches,
scanning resumes after each match; positions with no match advance by
one character.  The fuel bounds the number of steps; each step consumes
at least one character, so `length + 1` fuel is exact. -/
def ctAllF : Nat → List Char → List (List Char × List Char)
  | 0, _ => []
  | _ + 1, [] => []
  | fuel + 1, c :: cs =>
    match matchCreateAt (c :: cs) with
    | some (n, b, rest) => (n, b) :: ctAllF fuel rest
    | none => ctAllF fuel cs

/-- All CREATE TABLE matches of the input, in order. -/
def ctAll (l : List Char) : List (List Char × List Char) :=
  ctAllF (l.length + 1) l

/-- The non-greedy `(.+?);` of the INSERT pattern: at least one
character, then everything up to the first semicolon. -/
def valsToSemi (l : List Char) : Option (List Char × List Char) :=
  match l with
  | [] => none
  | c :: cs =>
    match cs.dropWhile (· != ';') with
    | _ :: rest => some (c :: cs.takeWhile (· != ';'), rest)
    | [] => none

/-- The `\s+VALUES\s+(.+?);` tail of the INSERT pattern. -/
def insTail (l : List Char) : Option (List Char × List Char) :=
  match dropWS1 l with
  | none => none
  | some r10 =>
    match litCI "values".data r10 with
    | none => none
    | some r11 =>
      match dropWS1 r11 with
      | none => none
      | some r12 => valsToSemi r12

/-- Attempt to match the INSERT pattern
`INSERT INTO\s+`?(\w+)`?\s*(?:\(([^)]+)\))?\s+VALUES\s+(.+?);` at the
head of the input.  Returns name, optional explicit column text, values
body and the rest.  When a parenthesis follows the name the optional
group is the only way the pattern can match (backtracking into the
whitespace cannot succeed), which the translation mirrors. -/
def matchInsertAt (l : List Char) :
    Option (List Char × Option (List Char) × List Char × List Char) :=
  match litCI "insert into".data l with
  | none => none
  | some r1 =>
    match dropWS1 r1 with
    | none => none
    | some r2 =>
      match takeWord1 (optTick r2) with
      | none => none
      | some (name, r4) =>
        let r5 := optTick r4
        match r5.dropWhile isSpaceCh with
        | '(' :: r7 =>
          match r7.dropWhile (· != ')') with
          | _ :: r9 =>
            if r7.takeWhile (· != ')') = [] then none
            else
              match insTail r9 with
              | some (vals, rest) => some (name, some (r7.takeWhile (· != ')')), vals, rest)
              | none => none
          | [] => none
        | _ =>
          match insTail r5 with
          | some (vals, rest) => some (name, none, vals, rest)
          | none => none

/-- Semantics of `re.finditer` for the INSERT pattern, like `ctAllF`. -/
def insAllF : Nat → List Char → List (List Char × Option (List Char) × List Char × List Char)
  | 0, _ => []
  | _ + 1, [] => []
  | fuel + 1, c :: cs =>
    match matchInsertAt (c :: cs) with
    | some (n, co, v, rest) => (n, co, v, rest) :: insAllF fuel rest
    | none => insAllF fuel cs

/-- All INSERT matches of the input, in order. -/
def insAll (l : List Char) : List (List Char × Option (List Char) × List Char × List Char) :=
  insAllF (l.length + 1) l

/-- The negative lookahead `(?![^()]*\))` of the column-splitting
pattern: succeeds when the scan ahead reaches an opening paren or the
end of the body before any closing paren. -/
def noCloseAhead : List Char → Bool
  | [] => true
  | c :: cs => if c = ')' then false else if c = '(' then true else noCloseAhead cs

/-- Semantics of `re.split(r",\s*(?![^()]*\))", columns_def)`: split at commas not
inside a parenthesised sub-expression, consuming the whitespace that
follows a splitting comma.  Fuelled: every step consumes at least one
character, so `length + 1` fuel is exact. -/
def splitColsGoF : Nat → List Char → List Char → List (List Char)
  | _, [], cur => [cur]
  | 0, l, cur => [cur ++ l]
  | fuel + 1, c :: cs, cur =>
    if c = ',' && noCloseAhead cs then
      cur :: splitColsGoF fuel (cs.dropWhile isSpaceCh) []
    else splitColsGoF fuel cs (cur ++ [c])

/-- The fragments of a CREATE TABLE body. -/
def splitCols (l : List Char) : List (List Char) := splitColsGoF (l.length + 1) l []

/-- The leading-identifier match
`re.match(r"`?(\w+)`?\s+[^,]*", line)`: optional backtick, a word, an
optional backtick, then at least one whitespace character. -/
def fragName (line : List Char) : Option (List Char) :=
  match takeWord1 (optTick line) with
  | none => none
  | some (w, r1) =>
    match optTick r1 with
    | c :: _ => if isSpaceCh c then some w else none
    | [] => none

/-- Python `line.upper().startswith(kw)` for an upper-case keyword. -/
def startsWithCI (kw l : List Char) : Bool := (litCI kw l).isSome

/-- Model of `SQLDumpParser._extract_columns`: fragment-wise extraction of
column names, discarding constraint/index fragments. -/
def extractCols (body : List Char) : List (List Char) :=
  (splitCols body).filterMap (fun fr =>
    let line := pyStrip fr
    match fragName line with
    | none => none
    | some w =>
      if startsWithCI "primary key".data line || startsWithCI "key".data line
          || startsWithCI "unique key".data line || startsWithCI "constraint".data line
      then none else some w)

/-- Last-occurrence lookup, matching the Python dict comprehension
`{col: val for col, val in zip(columns, parsed_row)}` where later
duplicate keys overwrite earlier ones. -/
def lookupLast (l : List (List Char × Value)) (k : List Char) : Option Value :=
  match l with
  | [] => none
  | (k2, v) :: rest =>
    match lookupLast rest k with
    | some v2 => some v2
    | none => if k2 = k then some v else none

/-- Re-projection of an explicit-column tuple into the schema's column
order: `[row.get(col, None) for col in table_columns]` with
`row = dict(zip(columns, parsed_row))`. -/
def reorder (schemaCols explCols : List (List Char)) (vals : List Value) : List Value :=
  schemaCols.map (fun col => (lookupLast (List.zip explCols vals) col).getD Value.null)

/-- The characters stripped from explicit column names: `strip(" `")`. -/
def tickSpace : List Char := [' ', btc]

/-- The explicit column list of an INSERT statement:
`[col.strip(" `") for col in columns_str.split(",")]`. -/
def explicitColumns (cstr : List Char) : List (List Char) :=
  (splitComma cstr).map (stripSet tickSpace)

/-- The rows contributed by one INSERT statement with an explicit
column list: parse each tuple, skip empty parses, re-project. -/
def explicitRows (schemaCols explCols : List (List Char)) (valuesStr : List Char) :
    List (List Value) :=
  (splitValues valuesStr).filterMap (fun v =>
    let p := parseValues v
    if p = [] then none else some (reorder schemaCols explCols p))

/-- The rows contributed by one INSERT statement without an explicit
column list: tuples are stored positionally, with no arity check. -/
def positionalRows (valuesStr : List Char) : List (List Value) :=
  (splitValues valuesStr).filterMap (fun v =>
    let p := parseValues v
    if p = [] then none else some p)

/-- Processing of one CREATE TABLE match: register the table when at
least one column was extracted, otherwise only warn (registry
unchanged). -/
def processCreate (tables : List (List Char × Table)) (m : List Char × List Char) :
    List (List Char × Table) :=
  let cols := extractCols m.2
  if cols = [] then tables else dictSet tables m.1 ⟨cols, []⟩

/-- Processing of one INSERT match: skip unknown tables, reject
explicit column lists whose length mismatches the schema, otherwise
append the statement's rows. -/
def processInsert (tables : List (List Char × Table)) (name : List Char)
    (colsStr : Option (List Char)) (valuesStr : List Char) : List (List Char × Table) :=
  match dictGet tables name with
  | none => tables
  | some tbl =>
    match colsStr with
    | some cstr =>
      let explCols := explicitColumns cstr
      if explCols.length = tbl.columns.length then
        dictSet tables name ⟨tbl.columns, tbl.rows ++ explicitRows tbl.columns explCols valuesStr⟩
      else tables
    | none =>
      dictSet tables name ⟨tbl.columns, tbl.rows ++ positionalRows valuesStr⟩

/-- Model of `SQLDumpParser.parse` on the file content: the CREATE TABLE pass
followed by the INSERT pass. -/
def parse (content : List Char) : List (List Char × Table) :=
  (insAll content).foldl (fun tb m => processInsert tb m.1 m.2.1 m.2.2.1)
    ((ctAll content).foldl processCreate [])

/-! Helper lemmas about the registry dictionary. -/

/-- Lookup after assignment of the same key yields the assigned value. -/
theorem dictGet_dictSet_self :
    ∀ (d : List (List Char × Table)) (k : List Char) (v : Table),
    dictGet (dictSet d k v) k = some v
  | [], k, v => by simp [dictSet, dictGet]
  | (k2, v2) :: rest, k, v => by
    by_cases h : k2 = k
    · simp [dictSet, dictGet, h]
    · simp only [dictSet, dictGet, if_neg h]
      exact dictGet_dictSet_self rest k v

/-- Membership in an assigned dictionary comes from the old dictionary
or is the assigned pair. -/
theorem mem_dictSet :
    ∀ (d : List (List Char × Table)) (k : List Char) (v : Table) (k2 : List Char) (t2 : Table),
    (k2, t2) ∈ dictSet d k v → (k2, t2) ∈ d ∨ (k2 = k ∧ t2 = v)
  | [], k, v, k2, t2 => by
    intro h
    simp [dictSet] at h
    exact Or.inr h
  | (a, b) :: rest, k, v, k2, t2 => by
    intro h
    by_cases hak : a = k
    · simp only [dictSet, if_pos hak] at h
      rcases List.mem_cons.mp h with h1 | h1
      · right
        have : k2 = a ∧ t2 = v := by simpa using h1
        exact ⟨this.1.trans hak, this.2⟩
      · exact Or.inl (List.mem_cons_of_mem _ h1)
    · simp only [dictSet, if_neg hak] at h
      rcases List.mem_cons.mp h with h1 | h1
      · exact Or.inl (by simp [h1])
      · rcases mem_dictSet rest k v k2 t2 h1 with h2 | h2
        · exact Or.inl (List.mem_cons_of_mem _ h2)
        · exact Or.inr h2

/-- A successful lookup is a member of the dictionary. -/
theorem dictGet_mem :
    ∀ (d : List (List Char × Table)) (k : List Char) (t : Table),
    dictGet d k = some t → (k, t) ∈ d
  | [], k, t => by simp [dictGet]
  | (a, b) :: rest, k, t => by
    intro h
    by_cases hak : a = k
    · subst hak
      simp only [dictGet, if_pos rfl] at h
      cases h
      exact List.mem_cons_self _ _
    · simp only [dictGet, if_neg hak] at h
      exact List.mem_cons_of_mem _ (dictGet_mem rest k t h)

/-- Re-projection always produces one value per schema column. -/
theorem reorder_length (sc ec : List (List Char)) (vals : List Value) :
    (reorder sc ec vals).length = sc.length := by
  simp [reorder]

/-- Coercion of a non-empty stripped token always yields a value. -/
theorem coerceRaw_isSome (raw : List Char) (h : raw ≠ []) :
    (coerceRaw raw).isSome = true := by
  unfold coerceRaw
  split_ifs <;> simp_all

/-! Claim C1. -/

/-- Content for the C1 counterexample: a two-column table receiving a
positional insert of arity one. -/
def c1cx : List Char :=
  "CREATE TABLE t (a INT,b INT) ENGINE=x INSERT INTO t VALUES (1);".data

/-- C1 (counterexample): the claimed length invariant fails for
positional inserts.  Parsing `c1cx` stores the row `[1]` (length 1) in
table `t` whose column count is 2; the violating row is stored, not
rejected. -/
theorem c1_counterexample :
    dictGet (parse c1cx) "t".data = some ⟨["a".data, "b".data], [[Value.int 1]]⟩ ∧
    ¬([Value.int 1].length = ["a".data, "b".data].length) := by decide

/-- C1 (amended): rows accepted through an insert statement carrying an
explicit column list always have length equal to the owning table's
column count; an insert step only ever adds rows of schema arity (or
leaves the table unchanged).  Positional inserts perform no arity check
(see the counterexample). -/
theorem c1_explicit_rows_have_schema_arity :
    ∀ (tables : List (List Char × Table)) (name cstr vstr : List Char) (tbl tbl2 : Table),
    dictGet tables name = some tbl →
    dictGet (processInsert tables name (some cstr) vstr) name = some tbl2 →
    tbl2.columns = tbl.columns ∧
      ∀ row ∈ tbl2.rows, row ∈ tbl.rows ∨ row.length = tbl.columns.length := by
  intro tables name cstr vstr tbl tbl2 h1 h2
  unfold processInsert at h2
  rw [h1] at h2
  by_cases he : (explicitColumns cstr).length = tbl.columns.length
  · simp only [if_pos he] at h2
    rw [dictGet_dictSet_self] at h2
    cases h2
    refine ⟨rfl, ?_⟩
    intro row hrow
    rcases List.mem_append.mp hrow with hold | hnew
    · exact Or.inl hold
    · right
      rcases List.mem_filterMap.mp hnew with ⟨v, _, hv⟩
      by_cases hp : parseValues v = []
      · simp [hp] at hv
      · simp only [if_neg hp] at hv
        cases hv
        exact reorder_length _ _ _
  · simp only [if_neg he] at h2
    rw [h1] at h2
    cases h2
    exact ⟨rfl, fun row hrow => Or.inl hrow⟩

/-- Registry used by the C1 witness. -/
def c1wTables : List (List Char × Table) := [("t".data, ⟨["a".data, "b".data], []⟩)]

/-- Witness for C1: a concrete explicit-column insert step on a
two-column table, with both lookups discharged by evaluation. -/
theorem c1_explicit_rows_have_schema_arity_witness :
    (⟨["a".data, "b".data], [[Value.int 1, Value.int 2]]⟩ : Table).columns =
        (⟨["a".data, "b".data], []⟩ : Table).columns ∧
      ∀ row ∈ (⟨["a".data, "b".data], [[Value.int 1, Value.int 2]]⟩ : Table).rows,
        row ∈ (⟨["a".data, "b".data], []⟩ : Table).rows ∨
          row.length = (⟨["a".data, "b".data], []⟩ : Table).columns.length :=
  c1_explicit_rows_have_schema_arity c1wTables "t".data "a,b".data "(1,2)".data
    ⟨["a".data, "b".data], []⟩ ⟨["a".data, "b".data], [[Value.int 1, Value.int 2]]⟩
    (by decide) (by decide)

/-! Claim C3. -/

/-- Content for the C3 end-to-end check: a three-column schema and an
insert with an explicit two-column list. -/
def c3ex : List Char :=
  "CREATE TABLE t (a INT,b INT,c INT) ENGINE=x INSERT INTO t (a,b) VALUES (1,2);".data

/-- C3: an insert statement whose explicit column list length differs
from the schema's column count contributes nothing: the registry is
unchanged by that statement (so zero rows are appended and the row
count is unchanged), and concretely a 3-column schema receiving a
2-column insert ends with an empty row list. -/
theorem c3_arity_mismatch_rejected :
    (∀ (tables : List (List Char × Table)) (name cstr vstr : List Char) (tbl : Table),
      dictGet tables name = some tbl →
      (explicitColumns cstr).length ≠ tbl.columns.length →
      processInsert tables name (some cstr) vstr = tables)
    ∧ parse c3ex = [("t".data, ⟨["a".data, "b".data, "c".data], []⟩)] := by
  constructor
  · intro tables name cstr vstr tbl h1 h2
    unfold processInsert
    rw [h1]
    simp [h2]
  · decide

/-- Registry used by the C3 witness. -/
def c3wTables : List (List Char × Table) :=
  [("t".data, ⟨["a".data, "b".data, "c".data], []⟩)]

/-- Witness for C3: a concrete mismatching insert step leaves the
concrete registry untouched. -/
theorem c3_arity_mismatch_rejected_witness :
    processInsert c3wTables "t".data (some "a,b".data) "(1,2)".data = c3wTables :=
  c3_arity_mismatch_rejected.1 c3wTables "t".data "a,b".data "(1,2)".data
    ⟨["a".data, "b".data, "c".data], []⟩ (by decide) (by decide)

/-! Claim C4. -/

/-- Content for the C4 counterexample: exactly the example of the
claim — schema `[id, name, age]`, explicit columns `[name, id]`,
tuple `('Bob', 7)`. -/
def c4cx : List Char :=
  "CREATE TABLE t (id INT,name INT,age INT) ENGINE=x INSERT INTO t (name,id) VALUES (".data
    ++ [qc] ++ "Bob".data ++ [qc] ++ ",7);".data

/-- C4 (counterexample): the claim's own example contradicts the
arity check.  The explicit list `[name, id]` has length 2 against a
3-column schema, so the statement is rejected and zero rows are stored
— not the claimed row `[7, 'Bob', Null]`. -/
theorem c4_counterexample :
    parse c4cx = [("t".data, ⟨["id".data, "name".data, "age".data], []⟩)] ∧
    ([] : List (List Value)) ≠ [[Value.int 7, Value.text "Bob".data, Value.null]] := by
  decide

/-- Content for the amended C4 example: an explicit column list of
schema length whose tuple is shorter, so `zip` truncation leaves `age`
out of the association and `Null` is substituted for it. -/
def c4ex : List Char :=
  "CREATE TABLE t (id INT,name INT,age INT) ENGINE=x INSERT INTO t (name,id,age) VALUES (".data
    ++ [qc] ++ "Bob".data ++ [qc] ++ ",7);".data

/-- C4 (amended): for an explicit column list of length equal to the
schema's column count, each tuple is re-projected into the schema's
declared column order — one stored value per schema column — with
`Null` substituted for schema columns absent from the tuple's
name-to-value association; e.g. schema `[id, name, age]`, explicit
columns `[name, id, age]`, tuple `('Bob', 7)` stores `[7, 'Bob',
Null]`. -/
theorem c4_reorder_into_schema_order :
    (∀ (sc ec : List (List Char)) (vals : List Value),
      (reorder sc ec vals).length = sc.length)
    ∧ parse c4ex = [("t".data, ⟨["id".data, "name".data, "age".data],
        [[Value.int 7, Value.text "Bob".data, Value.null]]⟩)] := by
  exact ⟨reorder_length, by decide⟩

/-! Helper lemmas about the split-scan state machine. -/

/-- A comma never toggles the string flag. -/
theorem nextInStr_comma (st : SplitSt) : nextInStr st ',' = st.inStr := by
  unfold nextInStr
  rw [show (decide ((',' : Char) = qc)) = false from by decide]
  simp

/-- A comma never changes the depth. -/
theorem nextDepth_comma (st : SplitSt) : nextDepth st ',' = st.depth := by
  unfold nextDepth
  rw [show (decide ((',' : Char) = '(')) = false from by decide]
  rw [show (decide ((',' : Char) = ')')) = false from by decide]
  simp

/-- The depth field of the step is the updated depth in every branch. -/
theorem splitStep_depth (st : SplitSt) (c : Char) :
    (splitStep st c).depth = nextDepth st c := by
  unfold splitStep
  split_ifs <;> rfl

/-- The depth moves by at most one per character, down only at a
closing paren and up only at an opening paren. -/
theorem nextDepth_bounds (st : SplitSt) (c : Char) :
    st.depth - (if c = ')' then 1 else 0) ≤ nextDepth st c ∧
    nextDepth st c ≤ st.depth + (if c = '(' then 1 else 0) := by
  unfold nextDepth
  split_ifs with h1 h2 <;> simp_all

/-- Depth bounds for a whole scan, generalised over the start state. -/
theorem foldl_depth_bounds :
    ∀ (l : List Char) (st : SplitSt),
    st.depth - (l.count ')' : Int) ≤ (l.foldl splitStep st).depth ∧
    (l.foldl splitStep st).depth ≤ st.depth + (l.count '(' : Int)
  | [], st => by simp
  | c :: cs, st => by
    have hstep := nextDepth_bounds st c
    have hd : (splitStep st c).depth = nextDepth st c := splitStep_depth st c
    have hrec := foldl_depth_bounds cs (splitStep st c)
    rw [hd] at hrec
    simp only [List.foldl_cons, List.count_cons]
    by_cases h1 : c = ')' <;> by_cases h2 : c = '(' <;>
      simp_all <;> omega

/-! Claim C9. -/

/-- C9 (counterexample): on the input `")"` the depth is `-1` after
processing the single character — the depth is not an integer `≥ 0`. -/
theorem c9_counterexample :
    (splitRun ")".data).depth = -1 ∧ ¬((0 : Int) ≤ (splitRun ")".data).depth) := by
  decide

/-- C9 (amended): the depth is an unclamped integer.  Over any input it
is bounded below by minus the number of closing parens and above by the
number of opening parens; an unmatched closing paren outside a string
drives it negative (see the counterexample), and the scan nevertheless
runs to completion. -/
theorem c9_depth_is_unclamped_integer :
    ∀ l : List Char,
    -((l.count ')' : Int)) ≤ (splitRun l).depth ∧
      (splitRun l).depth ≤ (l.count '(' : Int) := by
  intro l
  have h := foldl_depth_bounds l initSplitSt
  simpa [splitRun, initSplitSt] using h

/-! Claim C5. -/

/-- Values body of the C5 example: `(1,'x,y'),(2,'(z)')`. -/
def c5in : List Char :=
  "(1,".data ++ [qc] ++ "x,y".data ++ [qc] ++ "),(2,".data ++ [qc] ++ "(z)".data ++ [qc] ++ ")".data

/-- First expected tuple of the C5 example: `(1,'x,y')`. -/
def c5tupA : List Char := "(1,".data ++ [qc] ++ "x,y".data ++ [qc] ++ ")".data

/-- Second expected tuple of the C5 example: `(2,'(z)')`. -/
def c5tupB : List Char := "(2,".data ++ [qc] ++ "(z)".data ++ [qc] ++ ")".data

/-- C5: the tuple splitter separates exactly at commas seen at depth 0
outside a string — every other character only accumulates into the
current tuple — and the example body `(1,'x,y'),(2,'(z)')` splits into
exactly the two tuples `(1,'x,y')` and `(2,'(z)')`. -/
theorem c5_split_at_depth0_commas :
    (∀ (st : SplitSt) (c : Char), ¬(c = ',' ∧ st.depth = 0 ∧ st.inStr = false) →
      (splitStep st c).out = st.out ∧ (splitStep st c).current = st.current ++ [c])
    ∧ (∀ (st : SplitSt), st.depth = 0 → st.inStr = false →
      (splitStep st ',').out =
          st.out ++ (if pyStrip st.current = [] then [] else [pyStrip st.current])
        ∧ (splitStep st ',').current = (if pyStrip st.current = [] then st.current else []))
    ∧ splitValues c5in = [c5tupA, c5tupB] := by
  refine ⟨?_, ?_, by decide⟩
  · intro st c h
    by_cases hc : c = ','
    · subst hc
      have hni := nextInStr_comma st
      have hnd := nextDepth_comma st
      have : ¬(st.depth = 0 ∧ st.inStr = false) := fun hh => h ⟨rfl, hh.1, hh.2⟩
      by_cases hd : st.depth = 0
      · have hs : st.inStr = true := by
          cases hsv : st.inStr
          · exact absurd ⟨hd, hsv⟩ this
          · rfl
        simp [splitStep, hni, hnd, hs]
      · simp [splitStep, hni, hnd, hd]
    · have : decide (c = ',') = false := by simp [hc]
      simp [splitStep, this]
  · intro st hd hs
    have hni := nextInStr_comma st
    have hnd := nextDepth_comma st
    by_cases hps : pyStrip st.current = []
    · simp [splitStep, hni, hnd, hd, hs, hps]
    · simp [splitStep, hni, hnd, hd, hs, hps]

/-- Witness for C5: the accumulate branch applied to the initial state
and the character `x`, and the split branch applied to a state holding
accumulated text. -/
theorem c5_split_at_depth0_commas_witness :
    ((splitStep initSplitSt 'x').out = initSplitSt.out ∧
      (splitStep initSplitSt 'x').current = initSplitSt.current ++ ['x']) ∧
    ((splitStep ⟨false, false, 0, ['a'], []⟩ ',').out =
        ([] : List (List Char)) ++ (if pyStrip ['a'] = [] then [] else [pyStrip ['a']]) ∧
      (splitStep ⟨false, false, 0, ['a'], []⟩ ',').current =
        (if pyStrip ['a'] = [] then ['a'] else [])) :=
  ⟨c5_split_at_depth0_commas.1 initSplitSt 'x' (by decide),
   c5_split_at_depth0_commas.2.1 ⟨false, false, 0, ['a'], []⟩ rfl rfl⟩

/-! Claim C6. -/

/-- C6 (counterexample): tokenizing the tuple `(1, ,2)` produces the
blank token `" "`, and coercing that token yields no value at all
(the loop hits `if not raw: continue`) — not exactly one value. -/
theorem c6_counterexample :
    " ".data ∈ findallTok (stripParens "(1, ,2)".data) ∧ coerceTok " ".data = none := by
  decide

/-- C6 (amended): coercion never fails: every token whose stripped text
is non-empty yields exactly one value (blank tokens are dropped
silently); `NULL` in any letter case yields `Null`, `-42` yields
`Integer (-42)`, `3.14` yields `Float 3.14`, and an unquoted bare word
yields `Text` holding the word verbatim. -/
theorem c6_coercion_totality :
    (∀ t : List Char, pyStrip t ≠ [] → (coerceTok t).isSome = true)
    ∧ coerceTok "NULL".data = some .null
    ∧ coerceTok "null".data = some .null
    ∧ coerceTok "NuLl".data = some .null
    ∧ coerceTok "-42".data = some (.int (-42))
    ∧ coerceTok "3.14".data = some (.float (mkRat 314 100))
    ∧ coerceTok "hello".data = some (.text "hello".data) := by
  refine ⟨?_, by decide, by decide, by decide, by decide, by decide, by decide⟩
  intro t h
  unfold coerceTok
  exact coerceRaw_isSome _ h

/-- Witness for C6: coercing the concrete non-blank token `x` yields a
value. -/
theorem c6_coercion_totality_witness : (coerceTok "x".data).isSome = true :=
  c6_coercion_totality.1 "x".data (by decide)

/-! Claim C7. -/

/-- The quoted token `'O\'Brien'`. -/
def c7tokA : List Char := [qc] ++ "O".data ++ [bsc, qc] ++ "Brien".data ++ [qc]

/-- The quoted token `'a\\b'`. -/
def c7tokB : List Char := [qc] ++ "a".data ++ [bsc, bsc] ++ "b".data ++ [qc]

/-- C7: coercing a quoted token unescapes `\'` to the quote and `\\` to
the backslash: `'O\'Brien'` yields the text `O'Brien` and `'a\\b'`
yields the text `a\b`. -/
theorem c7_unescape_quotes_and_backslashes :
    coerceTok c7tokA = some (.text ("O".data ++ [qc] ++ "Brien".data)) ∧
    coerceTok c7tokB = some (.text ("a".data ++ [bsc] ++ "b".data)) := by
  decide

/-! Helper lemmas about stripping character sets from both ends. -/

/-- A head surviving `dropWhile` fails the predicate. -/
theorem head?_dropWhile_not (p : Char → Bool) :
    ∀ (l : List Char) (c : Char), (l.dropWhile p).head? = some c → p c = false
  | [], c => by simp
  | a :: l, c => by
    intro h
    by_cases hp : p a
    · rw [List.dropWhile_cons_of_pos hp] at h
      exact head?_dropWhile_not p l c h
    · rw [List.dropWhile_cons_of_neg hp] at h
      simp only [List.head?_cons, Option.some.injEq] at h
      subst h
      simpa using hp

/-- Dropping a prefix keeps the last element, provided something is
left. -/
theorem getLast?_dropWhile_ne (p : Char → Bool) :
    ∀ l : List Char, l.dropWhile p ≠ [] → (l.dropWhile p).getLast? = l.getLast?
  | [] => fun h => absurd rfl h
  | a :: l => by
    intro h
    by_cases hp : p a
    · rw [List.dropWhile_cons_of_pos hp] at h ⊢
      have hne : l ≠ [] := by
        intro he
        subst he
        simp [List.dropWhile] at h
      rw [getLast?_dropWhile_ne p l h]
      cases l with
      | nil => exact absurd rfl hne
      | cons b bs => exact (List.getLast?_cons_cons).symm
    · rw [List.dropWhile_cons_of_neg hp]

/-- Decomposition produced by a two-sided strip: the input is the
stripped core surrounded by characters of the stripped set. -/
theorem stripSet_decomp (set l : List Char) :
    ∃ p s, (∀ c ∈ p, set.contains c = true) ∧ (∀ c ∈ s, set.contains c = true) ∧
      l = p ++ stripSet set l ++ s := by
  refine ⟨l.takeWhile set.contains,
    (((l.dropWhile set.contains).reverse).takeWhile set.contains).reverse,
    fun c hc => List.mem_takeWhile_imp hc,
    fun c hc => List.mem_takeWhile_imp (List.mem_reverse.mp hc), ?_⟩
  conv_lhs => rw [← List.takeWhile_append_dropWhile set.contains l]
  rw [List.append_assoc]
  congr 1
  conv_lhs => rw [← List.reverse_reverse (l.dropWhile set.contains)]
  conv_lhs =>
    rw [← List.takeWhile_append_dropWhile set.contains (l.dropWhile set.contains).reverse]
  rw [List.reverse_append]
  rfl

/-- The first character surviving a two-sided strip is not in the
stripped set. -/
theorem stripSet_head (set l : List Char) (c : Char)
    (h : (stripSet set l).head? = some c) : set.contains c = false := by
  unfold stripSet at h
  rw [List.head?_reverse] at h
  have hne : ((l.dropWhile set.contains).reverse).dropWhile set.contains ≠ [] := by
    intro he
    rw [he] at h
    simp at h
  rw [getLast?_dropWhile_ne _ _ hne] at h
  rw [List.getLast?_reverse] at h
  exact head?_dropWhile_not _ _ _ h

/-- The last character surviving a two-sided strip is not in the
stripped set. -/
theorem stripSet_getLast (set l : List Char) (c : Char)
    (h : (stripSet set l).getLast? = some c) : set.contains c = false := by
  unfold stripSet at h
  rw [List.getLast?_reverse] at h
  exact head?_dropWhile_not _ _ _ h

/-- Membership in the paren strip set, spelled out. -/
theorem parenSet_contains_iff (c : Char) :
    parenSet.contains c = true ↔ (c = '(' ∨ c = ')') := by
  simp [parenSet, List.contains]

/-! Claim C8. -/

/-- C8 (counterexample): for the tuple text `((1),2)` the code strips
every leading and trailing paren character, so the interior handed to
the tokenizer is `1),2`, not the one-layer interior `(1),2`; the
leading paren of the first value's content is lost and the parse
yields `Text "1)"`. -/
theorem c8_counterexample :
    stripParens "((1),2)".data = "1),2".data ∧
    ¬(stripParens "((1),2)".data = "(1),2".data) ∧
    parseValues "((1),2)".data = [.text "1)".data, .int 2] := by
  decide

/-- C8 (amended): before tokenizing, the coercer strips all leading and
trailing paren characters (Python `strip('()')`), not exactly one
layer: the input decomposes as paren-characters, the stripped core,
paren-characters, and the surviving core neither starts nor ends with a
paren character; on `((1),2)` the interior is `1),2`. -/
theorem c8_strip_removes_all_edge_parens :
    (∀ l : List Char, ∃ p s,
      (∀ c ∈ p, c = '(' ∨ c = ')') ∧ (∀ c ∈ s, c = '(' ∨ c = ')') ∧
      l = p ++ stripParens l ++ s)
    ∧ (∀ (l : List Char) (c : Char), (stripParens l).head? = some c → ¬(c = '(' ∨ c = ')'))
    ∧ (∀ (l : List Char) (c : Char), (stripParens l).getLast? = some c → ¬(c = '(' ∨ c = ')'))
    ∧ stripParens "((1),2)".data = "1),2".data := by
  refine ⟨?_, ?_, ?_, by decide⟩
  · intro l
    obtain ⟨p, s, hp, hs, heq⟩ := stripSet_decomp parenSet l
    exact ⟨p, s, fun c hc => (parenSet_contains_iff c).mp (hp c hc),
      fun c hc => (parenSet_contains_iff c).mp (hs c hc), heq⟩
  · intro l c h hcon
    have h1 := stripSet_head parenSet l c h
    rw [(parenSet_contains_iff c).mpr hcon] at h1
    cases h1
  · intro l c h hcon
    have h1 := stripSet_getLast parenSet l c h
    rw [(parenSet_contains_iff c).mpr hcon] at h1
    cases h1

/-- Witness for C8: the head of the stripped interior of `((1),2)` is
the digit `1`, and applying the theorem shows it is not a paren. -/
theorem c8_strip_removes_all_edge_parens_witness :
    ¬(('1' : Char) = '(' ∨ ('1' : Char) = ')') :=
  c8_strip_removes_all_edge_parens.2.1 "((1),2)".data '1' (by decide)

/-! Registry invariants shared by the schema and insert passes. -/

/-- Every registered table has at least one column. -/
def RegCols (d : List (List Char × Table)) : Prop :=
  ∀ (k : List Char) (t : Table), (k, t) ∈ d → t.columns ≠ []

/-- Assignment of a table with columns preserves the invariant. -/
theorem regCols_dictSet (d : List (List Char × Table)) (k : List Char) (v : Table)
    (hd : RegCols d) (hv : v.columns ≠ []) : RegCols (dictSet d k v) := by
  intro k2 t2 hm
  rcases mem_dictSet d k v k2 t2 hm with h | h
  · exact hd k2 t2 h
  · rw [h.2]
    exact hv

/-- A schema step preserves the invariant: tables are only registered
with a non-empty column list. -/
theorem regCols_processCreate (d : List (List Char × Table)) (m : List Char × List Char)
    (hd : RegCols d) : RegCols (processCreate d m) := by
  unfold processCreate
  by_cases hc : extractCols m.2 = []
  · simpa [hc] using hd
  · simpa [hc] using regCols_dictSet d m.1 ⟨extractCols m.2, []⟩ hd hc

/-- An insert step preserves the invariant: it never changes a column
list. -/
theorem regCols_processInsert (d : List (List Char × Table)) (n : List Char)
    (co : Option (List Char)) (vs : List Char) (hd : RegCols d) :
    RegCols (processInsert d n co vs) := by
  unfold processInsert
  cases hg : dictGet d n with
  | none => exact hd
  | some tbl =>
    have htbl : tbl.columns ≠ [] := hd n tbl (dictGet_mem d n tbl hg)
    cases co with
    | some cstr =>
      by_cases he : (explicitColumns cstr).length = tbl.columns.length
      · simpa [he] using regCols_dictSet d n
          ⟨tbl.columns, tbl.rows ++ explicitRows tbl.columns (explicitColumns cstr) vs⟩ hd htbl
      · simpa [he] using hd
    | none =>
      exact regCols_dictSet d n ⟨tbl.columns, tbl.rows ++ positionalRows vs⟩ hd htbl

/-- The whole schema pass preserves the invariant. -/
theorem regCols_foldl_create :
    ∀ (ms : List (List Char × List Char)) (d : List (List Char × Table)),
    RegCols d → RegCols (ms.foldl processCreate d)
  | [], _, hd => hd
  | m :: ms, d, hd => regCols_foldl_create ms _ (regCols_processCreate d m hd)

/-- The whole insert pass preserves the invariant. -/
theorem regCols_foldl_ins :
    ∀ (ms : List (List Char × Option (List Char) × List Char × List Char))
      (d : List (List Char × Table)),
    RegCols d → RegCols (ms.foldl (fun tb m => processInsert tb m.1 m.2.1 m.2.2.1) d)
  | [], _, hd => hd
  | m :: ms, d, hd => regCols_foldl_ins ms _ (regCols_processInsert d m.1 m.2.1 m.2.2.1 hd)

/-! Claim C2. -/

/-- Content for the C2 counterexample: a schema statement whose body
yields no extractable columns (the fragment `x` has no type, so the
leading-identifier pattern requiring trailing whitespace fails). -/
def c2cx : List Char := "CREATE TABLE t (x) ENGINE=y".data

/-- C2 (counterexample): the schema statement for `t` is matched and
yields no columns, yet `t` is absent from the registry — the table is
dropped, not kept with an empty column list. -/
theorem c2_counterexample :
    ctAll c2cx = [("t".data, "x".data)] ∧ extractCols "x".data = [] ∧ parse c2cx = [] := by
  decide

/-- C2 (amended): a schema statement with no extractable columns does
not register its table at all (only a verbose warning is printed);
consequently every table in the final registry has a non-empty column
list. -/
theorem c2_registry_tables_have_columns :
    ∀ (content name : List Char) (tbl : Table),
    (name, tbl) ∈ parse content → tbl.columns ≠ [] := by
  intro content name tbl hm
  have h0 : RegCols ([] : List (List Char × Table)) := by
    intro k t h
    cases h
  unfold parse at hm
  exact regCols_foldl_ins _ _ (regCols_foldl_create _ _ h0) name tbl hm

/-- Content for the C2 witness. -/
def c2w : List Char := "CREATE TABLE t (a INT) ENGINE=x".data

/-- Witness for C2: the registered table of the witness content has a
non-empty column list. -/
theorem c2_registry_tables_have_columns_witness :
    (Table.mk ["a".data] []).columns ≠ [] :=
  c2_registry_tables_have_columns c2w "t".data ⟨["a".data], []⟩ (by decide)

/-! Suffix lemmas used for the engine-marker theorem. -/

/-- Scans dropping a prefix produce a suffix. -/
theorem dropWhile_suffix (p : Char → Bool) : ∀ l : List Char, List.IsSuffix (l.dropWhile p) l
  | [] => List.suffix_refl []
  | a :: l => by
    by_cases hp : p a
    · rw [List.dropWhile_cons_of_pos hp]
      exact (dropWhile_suffix p l).trans (List.suffix_cons a l)
    · rw [List.dropWhile_cons_of_neg hp]

/-- A successful literal match leaves a suffix. -/
theorem litCI_suffix : ∀ (pat l r : List Char), litCI pat l = some r → List.IsSuffix r l
  | [], l, r => by
    intro h
    cases h
    exact List.suffix_refl _
  | p :: ps, [], r => by
    intro h
    cases h
  | p :: ps, c :: cs, r => by
    intro h
    unfold litCI at h
    by_cases hc : lcase c = lcase p
    · rw [if_pos hc] at h
      exact (litCI_suffix ps cs r h).trans (List.suffix_cons c cs)
    · rw [if_neg hc] at h
      cases h

/-- Successful mandatory-whitespace consumption leaves a suffix. -/
theorem dropWS1_suffix (l r : List Char) (h : dropWS1 l = some r) : List.IsSuffix r l := by
  cases l with
  | nil => cases h
  | cons c cs =>
    simp only [dropWS1] at h
    by_cases hc : isSpaceCh c
    · rw [if_pos hc] at h
      cases h
      exact (dropWhile_suffix isSpaceCh cs).trans (List.suffix_cons c cs)
    · rw [if_neg hc] at h
      cases h

/-- Successful word consumption leaves a suffix. -/
theorem takeWord1_suffix (l : List Char) (w r : List Char)
    (h : takeWord1 l = some (w, r)) : List.IsSuffix r l := by
  cases l with
  | nil => cases h
  | cons c cs =>
    simp only [takeWord1] at h
    by_cases hc : isWordCh c
    · rw [if_pos hc] at h
      cases h
      exact (dropWhile_suffix isWordCh cs).trans (List.suffix_cons c cs)
    · rw [if_neg hc] at h
      cases h

/-- Skipping an optional backtick leaves a suffix. -/
theorem optTick_suffix : ∀ l : List Char, List.IsSuffix (optTick l) l
  | [] => List.suffix_refl _
  | c :: cs => by
    simp only [optTick]
    by_cases hc : c = btc
    · rw [if_pos hc]
      exact List.suffix_cons c cs
    · rw [if_neg hc]

/-- The non-greedy body scan only succeeds by consuming the engine
marker: some suffix of its input begins with the marker. -/
theorem bodyToEngine_marker :
    ∀ (l b r : List Char), bodyToEngine l = some (b, r) →
    ∃ s, List.IsSuffix s l ∧ (litCI engineChars s).isSome = true
  | [], b, r => by
    intro h
    cases h
  | c :: cs, b, r => by
    intro h
    unfold bodyToEngine at h
    cases hi : (if c = ')' then litCI engineChars (cs.dropWhile isSpaceCh) else none) with
    | some rest =>
      refine ⟨cs.dropWhile isSpaceCh,
        (dropWhile_suffix isSpaceCh cs).trans (List.suffix_cons c cs), ?_⟩
      by_cases hc : c = ')'
      · rw [if_pos hc] at hi
        simp [hi]
      · rw [if_neg hc] at hi
        cases hi
    | none =>
      rw [hi] at h
      cases hb : bodyToEngine cs with
      | none =>
        rw [hb] at h
        cases h
      | some pr =>
        obtain ⟨s, hs1, hs2⟩ := bodyToEngine_marker cs pr.1 pr.2 (by simp [hb])
        exact ⟨s, hs1.trans (List.suffix_cons c cs), hs2⟩

/-- The rest left by the body scan is a suffix of its input. -/
theorem bodyToEngine_rest :
    ∀ (l b r : List Char), bodyToEngine l = some (b, r) → List.IsSuffix r l
  | [], b, r => by
    intro h
    cases h
  | c :: cs, b, r => by
    intro h
    unfold bodyToEngine at h
    cases hi : (if c = ')' then litCI engineChars (cs.dropWhile isSpaceCh) else none) with
    | some rest =>
      rw [hi] at h
      cases h
      by_cases hc : c = ')'
      · rw [if_pos hc] at hi
        exact ((litCI_suffix _ _ _ hi).trans
          (dropWhile_suffix isSpaceCh cs)).trans (List.suffix_cons c cs)
      · rw [if_neg hc] at hi
        cases hi
    | none =>
      rw [hi] at h
      cases hb : bodyToEngine cs with
      | none =>
        rw [hb] at h
        cases h
      | some pr =>
        rw [hb] at h
        cases h
        exact (bodyToEngine_rest cs pr.1 pr.2 (by simp [hb])).trans (List.suffix_cons c cs)

/-- A successful CREATE TABLE match implies the engine marker occurs at
or after the match position. -/
theorem matchCreateAt_marker (l n b rest : List Char)
    (h : matchCreateAt l = some (n, b, rest)) :
    ∃ s, List.IsSuffix s l ∧ (litCI engineChars s).isSome = true := by
  unfold matchCreateAt at h
  cases h1 : litCI "create table".data l with
  | none =>
    simp only [h1] at h
    cases h
  | some r1 =>
    simp only [h1] at h
    cases h2 : dropWS1 r1 with
    | none =>
      simp only [h2] at h
      cases h
    | some r2 =>
      simp only [h2] at h
      cases h3 : takeWord1 (optTick r2) with
      | none =>
        simp only [h3] at h
        cases h
      | some pr =>
        obtain ⟨nm, r4⟩ := pr
        simp only [h3] at h
        cases h4 : (optTick r4).dropWhile isSpaceCh with
        | nil =>
          simp only [h4] at h
          cases h
        | cons c0 r7 =>
          simp only [h4] at h
          by_cases hc0 : c0 = '('
          · simp only [if_pos hc0] at h
            cases h5 : bodyToEngine r7 with
            | none =>
              simp only [h5] at h
              cases h
            | some pr2 =>
              obtain ⟨s, hs1, hs2⟩ := bodyToEngine_marker r7 pr2.1 pr2.2 (by simp [h5])
              refine ⟨s, ?_, hs2⟩
              have hsuf : List.IsSuffix r7 l := by
                have s1 : List.IsSuffix r7 (c0 :: r7) := List.suffix_cons c0 r7
                have s2 : List.IsSuffix (c0 :: r7) (optTick r4) := by
                  rw [← h4]
                  exact dropWhile_suffix isSpaceCh (optTick r4)
                have s3 : List.IsSuffix (optTick r4) r4 := optTick_suffix r4
                have s4 : List.IsSuffix r4 (optTick r2) := takeWord1_suffix _ nm r4 h3
                have s5 : List.IsSuffix (optTick r2) r2 := optTick_suffix r2
                have s6 : List.IsSuffix r2 r1 := dropWS1_suffix r1 r2 h2
                have s7 : List.IsSuffix r1 l := litCI_suffix _ l r1 h1
                exact ((((((s1.trans s2).trans s3).trans s4).trans s5).trans s6).trans s7)
              exact hs1.trans hsuf
          · simp only [if_neg hc0] at h
            cases h

/-- The rest left by a CREATE TABLE match is a suffix of the input. -/
theorem matchCreateAt_rest (l n b rest : List Char)
    (h : matchCreateAt l = some (n, b, rest)) : List.IsSuffix rest l := by
  unfold matchCreateAt at h
  cases h1 : litCI "create table".data l with
  | none =>
    simp only [h1] at h
    cases h
  | some r1 =>
    simp only [h1] at h
    cases h2 : dropWS1 r1 with
    | none =>
      simp only [h2] at h
      cases h
    | some r2 =>
      simp only [h2] at h
      cases h3 : takeWord1 (optTick r2) with
      | none =>
        simp only [h3] at h
        cases h
      | some pr =>
        obtain ⟨nm, r4⟩ := pr
        simp only [h3] at h
        cases h4 : (optTick r4).dropWhile isSpaceCh with
        | nil =>
          simp only [h4] at h
          cases h
        | cons c0 r7 =>
          simp only [h4] at h
          by_cases hc0 : c0 = '('
          · simp only [if_pos hc0] at h
            cases h5 : bodyToEngine r7 with
            | none =>
              simp only [h5] at h
              cases h
            | some pr2 =>
              obtain ⟨bd, rst⟩ := pr2
              simp only [h5] at h
              cases h
              have hsuf : List.IsSuffix r7 l := by
                have s1 : List.IsSuffix r7 (c0 :: r7) := List.suffix_cons c0 r7
                have s2 : List.IsSuffix (c0 :: r7) (optTick r4) := by
                  rw [← h4]
                  exact dropWhile_suffix isSpaceCh (optTick r4)
                have s3 : List.IsSuffix (optTick r4) r4 := optTick_suffix r4
                have s4 : List.IsSuffix r4 (optTick r2) := takeWord1_suffix _ n r4 h3
                have s5 : List.IsSuffix (optTick r2) r2 := optTick_suffix r2
                have s6 : List.IsSuffix r2 r1 := dropWS1_suffix r1 r2 h2
                have s7 : List.IsSuffix r1 l := litCI_suffix _ l r1 h1
                exact ((((((s1.trans s2).trans s3).trans s4).trans s5).trans s6).trans s7)
              exact (bodyToEngine_rest r7 b rest h5).trans hsuf
          · simp only [if_neg hc0] at h
            cases h

/-- Every CREATE TABLE match produced by the scan comes from a
successful pattern match at some suffix of the input. -/
theorem ctAllF_mem :
    ∀ (fuel : Nat) (l n b : List Char), (n, b) ∈ ctAllF fuel l →
    ∃ stmt, List.IsSuffix stmt l ∧ ∃ rest, matchCreateAt stmt = some (n, b, rest)
  | 0, l, n, b => by
    intro h
    cases h
  | fuel + 1, [], n, b => by
    intro h
    cases h
  | fuel + 1, c :: cs, n, b => by
    intro h
    unfold ctAllF at h
    cases hm : matchCreateAt (c :: cs) with
    | some tr =>
      obtain ⟨n0, b0, rest0⟩ := tr
      simp only [hm] at h
      rcases List.mem_cons.mp h with h1 | h1
      · obtain ⟨hn, hb⟩ := Prod.mk.injEq .. ▸ h1
        refine ⟨c :: cs, List.suffix_refl _, rest0, ?_⟩
        rw [hm, hn, hb]
      · obtain ⟨stmt, hs1, hrest⟩ := ctAllF_mem fuel rest0 n b h1
        exact ⟨stmt, hs1.trans (matchCreateAt_rest (c :: cs) n0 b0 rest0 hm), hrest⟩
    | none =>
      simp only [hm] at h
      obtain ⟨stmt, hs1, hrest⟩ := ctAllF_mem fuel cs n b h
      exact ⟨stmt, hs1.trans (List.suffix_cons c cs), hrest⟩

/-- A key registered by a schema step is the old key or the match's
table name. -/
theorem keyOf_processCreate (d : List (List Char × Table)) (m : List Char × List Char)
    (k : List Char) (t : Table) (h : (k, t) ∈ processCreate d m) :
    (∃ t0, (k, t0) ∈ d) ∨ k = m.1 := by
  unfold processCreate at h
  by_cases hc : extractCols m.2 = []
  · simp only [if_pos hc] at h
    exact Or.inl ⟨t, h⟩
  · simp only [if_neg hc] at h
    rcases mem_dictSet d m.1 _ k t h with h1 | h1
    · exact Or.inl ⟨t, h1⟩
    · exact Or.inr h1.1

/-- The schema pass starting from the empty registry only creates keys
named by some match. -/
theorem keys_foldl_create :
    ∀ (ms : List (List Char × List Char)) (d : List (List Char × Table))
      (k : List Char) (t : Table), (k, t) ∈ ms.foldl processCreate d →
    (∃ t0, (k, t0) ∈ d) ∨ ∃ m ∈ ms, k = m.1
  | [], d, k, t => fun h => Or.inl ⟨t, h⟩
  | m :: ms, d, k, t => by
    intro h
    rcases keys_foldl_create ms (processCreate d m) k t h with h1 | h1
    · obtain ⟨t0, ht0⟩ := h1
      rcases keyOf_processCreate d m k t0 ht0 with h2 | h2
      · exact Or.inl h2
      · exact Or.inr ⟨m, List.mem_cons_self m ms, h2⟩
    · obtain ⟨m2, hm2, hk⟩ := h1
      exact Or.inr ⟨m2, List.mem_cons_of_mem m hm2, hk⟩

/-- An insert step never creates a new key. -/
theorem keyOf_processInsert (d : List (List Char × Table)) (n : List Char)
    (co : Option (List Char)) (vs : List Char) (k : List Char) (t : Table)
    (h : (k, t) ∈ processInsert d n co vs) : ∃ t0, (k, t0) ∈ d := by
  unfold processInsert at h
  cases hg : dictGet d n with
  | none =>
    simp only [hg] at h
    exact ⟨t, h⟩
  | some tbl =>
    simp only [hg] at h
    have hmem : (n, tbl) ∈ d := dictGet_mem d n tbl hg
    cases co with
    | some cstr =>
      by_cases he : (explicitColumns cstr).length = tbl.columns.length
      · simp only [if_pos he] at h
        rcases mem_dictSet d n _ k t h with h1 | h1
        · exact ⟨t, h1⟩
        · exact ⟨tbl, h1.1 ▸ hmem⟩
      · simp only [if_neg he] at h
        exact ⟨t, h⟩
    | none =>
      rcases mem_dictSet d n _ k t h with h1 | h1
      · exact ⟨t, h1⟩
      · exact ⟨tbl, h1.1 ▸ hmem⟩

/-- The insert pass never creates new keys. -/
theorem keys_foldl_ins :
    ∀ (ms : List (List Char × Option (List Char) × List Char × List Char))
      (d : List (List Char × Table)) (k : List Char) (t : Table),
    (k, t) ∈ ms.foldl (fun tb m => processInsert tb m.1 m.2.1 m.2.2.1) d →
    ∃ t0, (k, t0) ∈ d
  | [], _, _, t => fun h => ⟨t, h⟩
  | m :: ms, d, k, t => by
    intro h
    obtain ⟨t0, ht0⟩ := keys_foldl_ins ms _ k t h
    exact keyOf_processInsert d m.1 m.2.1 m.2.2.1 k t0 ht0

/-! Claim C10. -/

/-- C10: a schema statement is only ever matched when the engine marker
occurs at or after the match position — equivalently, a statement not
eventually followed by `ENGINE=` is never matched — and every table of
the final registry stems from such a match, so no table of a
marker-less statement is registered. -/
theorem c10_schema_match_requires_engine_marker :
    (∀ (content name body : List Char), (name, body) ∈ ctAll content →
      ∃ stmt, List.IsSuffix stmt content ∧
        (∃ rest, matchCreateAt stmt = some (name, body, rest)) ∧
        ∃ s, List.IsSuffix s stmt ∧ (litCI engineChars s).isSome = true)
    ∧ (∀ (content name : List Char) (tbl : Table), (name, tbl) ∈ parse content →
      ∃ body, (name, body) ∈ ctAll content) := by
  constructor
  · intro content name body h
    obtain ⟨stmt, hs, rest, hm⟩ := ctAllF_mem _ content name body h
    exact ⟨stmt, hs, ⟨rest, hm⟩, matchCreateAt_marker stmt name body rest hm⟩
  · intro content name tbl h
    unfold parse at h
    obtain ⟨t0, ht0⟩ := keys_foldl_ins _ _ name tbl h
    rcases keys_foldl_create _ _ name t0 ht0 with h1 | h1
    · obtain ⟨t1, ht1⟩ := h1
      cases ht1
    · obtain ⟨m, hm, hk⟩ := h1
      exact ⟨m.2, by rw [hk]; exact hm⟩

/-- Content for the C10 witness. -/
def c10w : List Char := "CREATE TABLE t (a I) ENGINE=x".data

/-- Witness for C10: the witness content contains one schema match, and
the theorem produces its statement suffix and marker occurrence. -/
theorem c10_schema_match_requires_engine_marker_witness :
    ∃ stmt, List.IsSuffix stmt c10w ∧
      (∃ rest, matchCreateAt stmt = some ("t".data, "a I".data, rest)) ∧
      ∃ s, List.IsSuffix s stmt ∧ (litCI engineChars s).isSome = true :=
  c10_schema_match_requires_engine_marker.1 c10w "t".data "a I".data (by decide)
